import Mathlib

/-!
A shallow embedding of `src/wireviz/wv_harness.py`: the `Harness` class with
its reference-resolution logic in `connect`, the mate bookkeeping in
`add_mate_pin`, and the BOM aggregation in `populate_bom` /
`_add_to_internal_bom`.

Embedding conventions:
* Python dicts keyed by designator become insertion-ordered association
  lists (`List (String × _)`), looked up with `lookupD` (first match) and
  updated in place with `updateDict`.
* Python reference values of type `int | str` become the sum type `Ref`.
* Python exceptions become `Except` values (`WvError` for `connect` and
  `add_mate_pin`, `String` for the BOM walk).
* The mutable `self.bom` defaultdict becomes a function
  `String → Option BomEntry`; a missing key plays the role of the
  defaultdict's absent entry.
* The dataclasses `Connector`, `Cable`, `AdditionalComponent`, the constant
  `AUTOGENERATED_PREFIX` and the helpers `activate_pin`, `pin_objects`,
  `Cable._connect`, `parse_arrow_str` live in modules that are not part of
  the sources (`wv_dataclasses.py`, `wv_graphviz.py`); those parts are
  modelled from the spec and marked as such in their doc comments.
* `metadata`, `options`, `tweak` and all graph/rendering code are carried
  data of no consequence to the claims and are omitted.
-/

deriving instance DecidableEq for Except

/-- A raw reference value, Python `int | str`. -/
inductive Ref where
  | nat (n : Nat)
  | str (s : String)
deriving DecidableEq

/-- Which side of the connector box a pin is drawn on (`Side` in the source). -/
inductive Side where
  | left
  | right
deriving DecidableEq

/-- Modelled from the spec: the per-pin activation state
(inactive / active(side, isRealConnection)); the pin objects holding it are
defined in `wv_dataclasses.py`, outside the sources. -/
structure PinState where
  active : Bool
  side : Option Side
  is_connection : Option Bool
deriving DecidableEq

/-- Modelled from the spec: a pin object is owned by its parent connector and
referenced (not owned) elsewhere; we identify it by (connector designator,
pin id).  `pin_objects` in `wv_dataclasses.py` maps each pin identifier
occurring in `pins` to its pin object; `connect` maps pin labels to pin
numbers before subscripting `pin_objects` (see the source comment
"map pin name to pin number"). -/
structure PinObj where
  conn : String
  pin : Ref
deriving DecidableEq

inductive ArrowDirection where
  | noDir
  | forward
  | backward
  | both
deriving DecidableEq

inductive ArrowWeight where
  | single
  | double
deriving DecidableEq

/-- An arrow carries a direction and a weight (spec data model for Mate). -/
structure Arrow where
  direction : ArrowDirection
  weight : ArrowWeight
deriving DecidableEq

/-- Python `str.startswith`, computed on the character lists. -/
def strStartsWith (p s : String) : Bool := p.data.isPrefixOf s.data

/-- Python `str.endswith`, computed on the character lists. -/
def strEndsWith (p s : String) : Bool := p.data.isSuffixOf s.data

/-- Modelled from the spec: `parse_arrow_str` is defined in `wv_graphviz.py`,
outside the sources; the spec says only that an arrow carries a direction
(none / forward / backward / both), so the mapping from the string is chosen
by its evident shape. -/
def parse_arrow_str (s : String) : ArrowDirection :=
  if strStartsWith "<" s && strEndsWith ">" s then ArrowDirection.both
  else if strEndsWith ">" s then ArrowDirection.forward
  else if strStartsWith "<" s then ArrowDirection.backward
  else ArrowDirection.noDir

/-- The fields of `AdditionalComponent` read by the harness code
(`wv_dataclasses.py` is outside the sources; fields follow the spec's data
model: content hash, quantity, ignorable flag). -/
structure AdditionalComponent where
  bom_hash : String := ""
  bom_qty : Nat := 1
  ignore_in_bom : Bool := false
deriving DecidableEq

/-- A wire object inside a cable; the BOM walk reads only its content hash. -/
structure Wire where
  bom_hash : String := ""
deriving DecidableEq

/-- The connector fields read by the harness code (`wv_dataclasses.py` is
outside the sources; fields follow the spec's data model). -/
structure Connector where
  designator : String
  pins : List Ref := []
  pinlabels : List Ref := []
  category : Option String := none
  ignore_in_bom : Bool := false
  bom_hash : String := ""
  bom_qty : Nat := 1
  additional_components : List AdditionalComponent := []
  pin_states : Ref → PinState := fun _ => { active := false, side := none, is_connection := none }

/-- Modelled from the spec: `Connector.activate_pin` (defined in
`wv_dataclasses.py`) drives the pin state machine
`inactive → active(side, isRealConnection)`; a re-activation overwrites the
side and connection flag, and a pin is never reverted to inactive. -/
def activate_pin (c : Connector) (pin : Ref) (side : Side) (is_connection : Bool) : Connector :=
  { c with pin_states := fun q =>
      if q = pin then { active := true, side := some side, is_connection := some is_connection }
      else c.pin_states q }

/-- A record on a cable's connection list: (from-pin, wire reference,
to-pin), either endpoint possibly absent (open wire end). -/
structure Connection where
  from_pin : Option PinObj
  wire : Ref
  to_pin : Option PinObj
deriving DecidableEq

/-- The cable fields read by the harness code (`wv_dataclasses.py` is outside
the sources; fields follow the spec's data model).  `connections` embeds the
source's `_connections` list. -/
structure Cable where
  designator : String
  colors : List Ref := []
  wirelabels : List Ref := []
  category : Option String := none
  ignore_in_bom : Bool := false
  bom_hash : String := ""
  bom_qty : Nat := 1
  additional_components : List AdditionalComponent := []
  wire_objects : List (Ref × Wire) := []
  connections : List Connection := []
deriving DecidableEq

/-- Modelled from the spec: `Cable._connect` (defined in
`wv_dataclasses.py`) records the (from-pin, wire, to-pin) triple on the
cable's connection list; duplicate wire references accumulate. -/
def cableConnect (c : Cable) (from_pin : Option PinObj) (wire : Ref) (to_pin : Option PinObj) :
    Cable :=
  { c with connections := c.connections ++ [{ from_pin := from_pin, wire := wire, to_pin := to_pin }] }

/-- A mate: pin-level (`MatePin`) or component-level (`MateComponent`). -/
inductive Mate where
  | pin (from_pin : PinObj) (to_pin : PinObj) (arrow : Arrow)
  | comp (from_name : String) (to_name : String) (arrow : Arrow)
deriving DecidableEq

/-- The exceptions `connect` and `add_mate_pin` can raise, carrying the
context the source interpolates into the message strings. -/
inductive WvError where
  | pinAmbiguous (name : String) (pin : Ref)
  | pinDupLabel (name : String) (pin : Ref)
  | pinNotFound (name : String) (pin : Ref)
  | pinIndexError (name : String)
  | wireAmbiguous (name : String) (wire : Ref)
  | wireDup (name : String) (wire : Ref)
  | keyErrorConn (name : String)
  | keyErrorPin (name : String) (pin : Ref)
  | keyErrorCable (name : String)
deriving DecidableEq

/-- One merged BOM line: accumulated quantity, the set of visible
designators, and the category label (last write wins). -/
structure BomEntry where
  qty : Nat
  designators : Finset String
  category : Option String
deriving DecidableEq

/-- The BOM mapping: content hash → entry. -/
abbrev Bom := String → Option BomEntry

def emptyBom : Bom := fun _ => none

/-- Modelled from the spec: the fixed prefix identifying autogenerated
designators (the constant `AUTOGENERATED_PREFIX` of `wv_dataclasses.py`,
outside the sources; its exact value is immaterial to the claims). -/
def AUTOGENERATED_TAG : String := "AUTOGENERATED_"

/-- The `designator` argument of the nested `_add` helper: Python
`None`, a single string, or a list of strings. -/
inductive DesigArg where
  | noneD
  | one (s : String)
  | many (l : List String)
deriving DecidableEq

/-- `designator_list` as computed at the top of `_add`. -/
def desigList : DesigArg → List String
  | .noneD => []
  | .one s => [s]
  | .many l => l

/-- The source's per-designator filter
`if des and not des.startswith(AUTOGENERATED_PREFIX)`. -/
def keepDesig (d : String) : Bool :=
  !(d == "") && !(strStartsWith AUTOGENERATED_TAG d)

/-- The set of designators `_add` actually inserts for one call. -/
def filtDesig (d : DesigArg) : Finset String :=
  ((desigList d).filter keepDesig).toFinset

/-- The nested helper `_add` of `_add_to_internal_bom`: fetch (or default)
the entry of `hash`, add the quantity, union in the filtered designators,
overwrite the category. -/
def addEntry (bom : Bom) (hash : String) (qty : Nat) (designator : DesigArg)
    (category : Option String) : Bom :=
  let prev : BomEntry :=
    match bom hash with
    | some e => e
    | none => { qty := 0, designators := ∅, category := none }
  fun k =>
    if k = hash then
      some { qty := prev.qty + qty
             designators := prev.designators ∪ filtDesig designator
             category := category }
    else bom k

/-- The argument tuple of one `_add` call. -/
structure AddRec where
  hash : String
  qty : Nat
  desig : DesigArg
  category : Option String
deriving DecidableEq

def applyRec (b : Bom) (r : AddRec) : Bom :=
  addEntry b r.hash r.qty r.desig r.category

/-- Run a sequence of `_add` calls in order. -/
def applyRecs (b : Bom) (l : List AddRec) : Bom :=
  l.foldl applyRec b

/-- The `_add` calls issued for the additional components attached to an
item (the final loop of `_add_to_internal_bom`): ignored components are
skipped, the rest are added with the parent's designator and the category
`<parentCategory>_additional`. -/
def compRecs (cat : String) (desig : String) (comps : List AdditionalComponent) : List AddRec :=
  comps.filterMap fun comp =>
    if comp.ignore_in_bom then none
    else some { hash := comp.bom_hash, qty := comp.bom_qty, desig := .one desig,
                category := some (cat ++ "_additional") }

/-- The runtime type of an item passed to `_add_to_internal_bom`
(the aggregator branches on `isinstance`). -/
inductive Item where
  | conn (c : Connector)
  | cable (c : Cable)
  | addl (a : AdditionalComponent)

/-- `Harness._add_to_internal_bom`.  Each branch issues its `_add` calls in
source order via `applyRecs`.  A connector whose `category` is `"bundle"`
would make the Python code subscript the non-existent attribute
`wire_objects` (an `AttributeError`), embedded as `.error`. -/
def addToInternalBom (bom : Bom) (item : Item) : Except String Bom :=
  match item with
  | .conn c =>
    if c.ignore_in_bom then .ok bom
    else if c.category = some "bundle" then
      .error "AttributeError: Connector object has no attribute wire_objects"
    else
      .ok (applyRecs bom
        ({ hash := c.bom_hash, qty := c.bom_qty, desig := .one c.designator,
           category := some "connector" }
          :: compRecs "connector" c.designator c.additional_components))
  | .cable c =>
    if c.ignore_in_bom then .ok bom
    else
      let cat := if c.category = some "bundle" then "wire" else "cable"
      if c.category = some "bundle" then
        .ok (applyRecs bom
          ((c.wire_objects.map fun w =>
              { hash := w.2.bom_hash, qty := c.bom_qty, desig := .one c.designator,
                category := some cat })
            ++ compRecs cat c.designator c.additional_components))
      else
        .ok (applyRecs bom
          ({ hash := c.bom_hash, qty := c.bom_qty, desig := .one c.designator,
             category := some cat }
            :: compRecs cat c.designator c.additional_components))
  | .addl a =>
    if a.ignore_in_bom then .ok bom
    else
      .ok (applyRecs bom
        [{ hash := a.bom_hash, qty := a.bom_qty, desig := .noneD,
           category := some "additional" }])

/-- The sequence of `_add` calls `_add_to_internal_bom` issues for an item
that it processes without raising (used to state lemmas about the walk). -/
def recsOfItem : Item → List AddRec
  | .conn c =>
    if c.ignore_in_bom ∨ c.category = some "bundle" then []
    else
      { hash := c.bom_hash, qty := c.bom_qty, desig := .one c.designator,
        category := some "connector" }
        :: compRecs "connector" c.designator c.additional_components
  | .cable c =>
    if c.ignore_in_bom then []
    else
      let cat := if c.category = some "bundle" then "wire" else "cable"
      if c.category = some "bundle" then
        (c.wire_objects.map fun w =>
          { hash := w.2.bom_hash, qty := c.bom_qty, desig := .one c.designator,
            category := some cat })
          ++ compRecs cat c.designator c.additional_components
      else
        { hash := c.bom_hash, qty := c.bom_qty, desig := .one c.designator,
          category := some cat }
          :: compRecs cat c.designator c.additional_components
  | .addl a =>
    if a.ignore_in_bom then []
    else
      [{ hash := a.bom_hash, qty := a.bom_qty, desig := .noneD,
         category := some "additional" }]

/-- Dict lookup: first entry with the given key (`d[k]` / `k in d`). -/
def lookupD {α : Type} (d : List (String × α)) (k : String) : Option α :=
  match d with
  | [] => none
  | (k', v) :: rest => if k' = k then some v else lookupD rest k

/-- In-place update of the (first) entry with the given key, as mutating
`d[k]` does in Python. -/
def updateDict {α : Type} (d : List (String × α)) (k : String) (f : α → α) :
    List (String × α) :=
  match d with
  | [] => []
  | (k', v) :: rest => if k' = k then (k', f v) :: rest else (k', v) :: updateDict rest k f

/-- The `Harness` state: `__post_init__` starts every collection empty and
the BOM mapping as an empty defaultdict. -/
structure Harness where
  connectors : List (String × Connector) := []
  cables : List (String × Cable) := []
  mates : List Mate := []
  bom : Bom := emptyBom
  additional_bom_items : List AdditionalComponent := []

/-- `list.index(x)`: position of the first occurrence (callers guard by
membership, as Python's `in` checks do). -/
def idxOf {α : Type} [DecidableEq α] : List α → α → Nat
  | [], _ => 0
  | a :: l, x => if a = x then 0 else idxOf l x + 1

/-- Lines 179–197 of the source, the per-endpoint body of the `connect`
resolution loop: cross-space ambiguity check, duplicate-label check,
label-to-pin mapping, final membership check.  The second component records
whether the pin-label branch was taken (only then does the source write the
resolved pin back into `from_pin`/`to_pin`). -/
def resolvePinStep (name : String) (c : Connector) (pin : Ref) :
    Except WvError (Ref × Bool) :=
  if pin ∈ c.pins ∧ pin ∈ c.pinlabels ∧ idxOf c.pins pin ≠ idxOf c.pinlabels pin then
    .error (.pinAmbiguous name pin)
  else if pin ∈ c.pinlabels then
    if 1 < c.pinlabels.count pin then .error (.pinDupLabel name pin)
    else
      match c.pins[idxOf c.pinlabels pin]? with
      | some p => if p ∈ c.pins then .ok (p, true) else .error (.pinNotFound name p)
      | none => .error (.pinIndexError name)
  else
    if pin ∈ c.pins then .ok (pin, false) else .error (.pinNotFound name pin)

/-- The §4.1 pin resolver: the resolved canonical pin of `resolvePinStep`. -/
def resolvePin (name : String) (c : Connector) (pin : Ref) : Except WvError Ref :=
  match resolvePinStep name c pin with
  | .ok (p, _) => .ok p
  | .error e => .error e

/-- Lines 199–225 of the source: wire-reference resolution against a cable.
A reference found in the color list (uniquely) maps to that wire's 1-based
index, else one found in the wire-label list (uniquely) likewise; a
reference found in neither list is returned unchanged. -/
def resolveWire (via_name : String) (cable : Cable) (via_wire : Ref) : Except WvError Ref :=
  if via_wire ∈ cable.colors ∧ via_wire ∈ cable.wirelabels ∧
      idxOf cable.colors via_wire ≠ idxOf cable.wirelabels via_wire then
    .error (.wireAmbiguous via_name via_wire)
  else if via_wire ∈ cable.colors then
    if 1 < cable.colors.count via_wire then .error (.wireDup via_name via_wire)
    else .ok (.nat (idxOf cable.colors via_wire + 1))
  else if via_wire ∈ cable.wirelabels then
    if 1 < cable.wirelabels.count via_wire then .error (.wireDup via_name via_wire)
    else .ok (.nat (idxOf cable.wirelabels via_wire + 1))
  else .ok via_wire

/-- One iteration of the `connect` endpoint loop
(`for (name, pin) in zip([from_name, to_name], [from_pin, to_pin])`).
`origPin` is the pin value captured by `zip` before the loop ran;
`fp`/`tp` are the current values of the `from_pin`/`to_pin` variables, which
the pin-label branch overwrites (`if name == from_name: from_pin = pin`,
`if name == to_name: to_pin = pin`). -/
def endpointStep (h : Harness) (name : Option String) (origPin : Ref)
    (from_name to_name : Option String) (fp tp : Ref) : Except WvError (Ref × Ref) :=
  match name with
  | none => .ok (fp, tp)
  | some n =>
    match lookupD h.connectors n with
    | none => .ok (fp, tp)
    | some connector =>
      match resolvePinStep n connector origPin with
      | .error e => .error e
      | .ok (p, viaLabel) =>
        if viaLabel then
          .ok ((if from_name = some n then p else fp),
               (if to_name = some n then p else tp))
        else .ok (fp, tp)

/-- The whole endpoint loop of `connect`: first the `from` endpoint, then the
`to` endpoint, each reading the originally captured pin value but writing the
shared `from_pin`/`to_pin` variables. -/
def resolveEndpoints (h : Harness) (from_name : Option String) (from_pin : Ref)
    (to_name : Option String) (to_pin : Ref) : Except WvError (Ref × Ref) :=
  match endpointStep h from_name from_pin from_name to_name from_pin to_pin with
  | .error e => .error e
  | .ok (fp, tp) => endpointStep h to_name to_pin from_name to_name fp tp

/-- Lines 228–237: fetch the pin object of an endpoint.  `None` endpoint →
no pin object; unknown connector or pin → Python `KeyError`. -/
def pinObjFor (h : Harness) (name : Option String) (pin : Ref) :
    Except WvError (Option PinObj) :=
  match name with
  | none => .ok none
  | some n =>
    match lookupD h.connectors n with
    | none => .error (.keyErrorConn n)
    | some c => if pin ∈ c.pins then .ok (some { conn := n, pin := pin })
                else .error (.keyErrorPin n pin)

/-- Lines 240–243: `if name in self.connectors:
self.connectors[name].activate_pin(pin, side)`. -/
def activateIfPresent (h : Harness) (name : Option String) (pin : Ref) (side : Side)
    (is_connection : Bool) : Harness :=
  match name with
  | none => h
  | some n =>
    if (lookupD h.connectors n).isSome then
      { h with connectors := (updateDict h.connectors n
          (fun c => activate_pin c pin side is_connection)) }
    else h

/-- `Harness.connect`: resolve both endpoints, resolve the wire reference,
fetch the pin objects, record the connection on the cable, activate the
pins that exist (from-side right, to-side left, as real connections). -/
def connect (h : Harness) (from_name : Option String) (from_pin : Ref) (via_name : String)
    (via_wire : Ref) (to_name : Option String) (to_pin : Ref) : Except WvError Harness :=
  match resolveEndpoints h from_name from_pin to_name to_pin with
  | .error e => .error e
  | .ok (from_pin, to_pin) =>
    let wres : Except WvError Ref :=
      match lookupD h.cables via_name with
      | none => .ok via_wire
      | some cable => resolveWire via_name cable via_wire
    match wres with
    | .error e => .error e
    | .ok via_wire =>
      match pinObjFor h from_name from_pin with
      | .error e => .error e
      | .ok from_pin_obj =>
        match pinObjFor h to_name to_pin with
        | .error e => .error e
        | .ok to_pin_obj =>
          match lookupD h.cables via_name with
          | none => .error (.keyErrorCable via_name)
          | some _ =>
            let h' := { h with cables := (updateDict h.cables via_name
                (fun c => cableConnect c from_pin_obj via_wire to_pin_obj)) }
            let h' := activateIfPresent h' from_name from_pin Side.right true
            let h' := activateIfPresent h' to_name to_pin Side.left true
            .ok h'
    -- (the second cable lookup mirrors `self.cables[via_name]` on line 239)

/-- `Harness.add_mate_pin`: fetch both connectors and pin objects directly
(Python `KeyError` on a missing key), record a `MatePin`, and activate the
source pin on side right and the destination pin on side left, both with
`is_connection = False`. -/
def add_mate_pin (h : Harness) (from_name : String) (from_pin : Ref)
    (to_name : String) (to_pin : Ref) (arrow_str : String) : Except WvError Harness :=
  match lookupD h.connectors from_name with
  | none => .error (.keyErrorConn from_name)
  | some from_con =>
    if from_pin ∈ from_con.pins then
      match lookupD h.connectors to_name with
      | none => .error (.keyErrorConn to_name)
      | some to_con =>
        if to_pin ∈ to_con.pins then
          let arrow : Arrow := { direction := parse_arrow_str arrow_str,
                                 weight := ArrowWeight.single }
          let h' := { h with mates := h.mates ++
              [Mate.pin { conn := from_name, pin := from_pin }
                        { conn := to_name, pin := to_pin } arrow] }
          let h' := { h' with connectors := (updateDict h'.connectors from_name
              (fun c => activate_pin c from_pin Side.right false)) }
          let h' := { h' with connectors := (updateDict h'.connectors to_name
              (fun c => activate_pin c to_pin Side.left false)) }
          .ok h'
        else .error (.keyErrorPin to_name to_pin)
    else .error (.keyErrorPin from_name from_pin)

/-- `Harness.add_mate_component`: record a `MateComponent`, no validation. -/
def add_mate_component (h : Harness) (from_name to_name : String) (arrow_str : String) :
    Harness :=
  { h with mates := h.mates ++
      [Mate.comp from_name to_name
        { direction := parse_arrow_str arrow_str, weight := ArrowWeight.single }] }

/-- The items `populate_bom` visits, in order: all connectors, all cables,
all additional top-level items. -/
def bomItems (h : Harness) : List Item :=
  (h.connectors.map fun kv => Item.conn kv.2)
    ++ (h.cables.map fun kv => Item.cable kv.2)
    ++ (h.additional_bom_items.map Item.addl)

/-- Feed a list of items through `_add_to_internal_bom`, threading the BOM
mapping; the first raised exception aborts the walk. -/
def addItems : List Item → Bom → Except String Bom
  | [], b => .ok b
  | i :: rest, b =>
    match addToInternalBom b i with
    | .error e => .error e
    | .ok b2 => addItems rest b2

/-- `Harness.populate_bom`: visit every connector, cable and additional item,
accumulating into the harness's persistent `bom` mapping.  (The trailing
`print_bom_debug` only prints and is omitted.) -/
def populate_bom (h : Harness) : Except String Harness :=
  match addItems (bomItems h) h.bom with
  | .error e => .error e
  | .ok b => .ok { h with bom := b }

/-- The concatenated `_add` calls of a walk over `l`. -/
def itemsRecs (l : List Item) : List AddRec :=
  (l.map recsOfItem).flatten

/-- The quantity recorded for a hash (0 when the entry is absent). -/
def qtyAt (b : Bom) (k : String) : Nat :=
  match b k with
  | some e => e.qty
  | none => 0

/-- The designator set recorded for a hash (empty when absent). -/
def desigAt (b : Bom) (k : String) : Finset String :=
  match b k with
  | some e => e.designators
  | none => ∅

/-- Quantity and designator set of an entry, the category projected away
(the merge rule overwrites the category with the most recent write, so only
these two fields are order-independent). -/
def entryObs (b : Bom) (k : String) : Option (Nat × Finset String) :=
  (b k).map fun e => (e.qty, e.designators)

/-- Total quantity a sequence of `_add` calls contributes to a hash. -/
def sumQty (l : List AddRec) (k : String) : Nat :=
  (l.map fun r => if r.hash = k then r.qty else 0).sum

/-- Union of the designators a sequence of `_add` calls contributes to a
hash. -/
def unionDes (l : List AddRec) (k : String) : Finset String :=
  l.foldr (fun r s => (if r.hash = k then filtDesig r.desig else ∅) ∪ s) ∅

/-- The state a pin is in inside a harness (none if the connector is
unknown). -/
def pinStateIn (h : Harness) (n : String) (p : Ref) : Option PinState :=
  (lookupD h.connectors n).map fun c => c.pin_states p

/-- The raised exception of a computation, if any (used to state facts about
results whose success value, a `Harness`, carries function-valued fields and
hence no decidable equality). -/
def errOf {α : Type} (x : Except WvError α) : Option WvError :=
  match x with
  | .error e => some e
  | .ok _ => none

/- Concrete instances used by witnesses and counterexamples (the §8
end-to-end scenario of the spec). -/

/-- Connector `X1` of the spec's §8 scenario: pins `[1, 2]`, labels
`["GND", "VCC"]`. -/
def X1conn : Connector :=
  { designator := "X1", pins := [.nat 1, .nat 2],
    pinlabels := [.str "GND", .str "VCC"], bom_hash := "hX1" }

/-- Connector `X2` of the §8 scenario: pins `[1, 2]`, no labels. -/
def X2conn : Connector :=
  { designator := "X2", pins := [.nat 1, .nat 2], bom_hash := "hX2" }

/-- Cable `W1` of the §8 scenario: wires `[1, 2]`, colors `["RD", "BK"]`. -/
def W1cable : Cable :=
  { designator := "W1", colors := [.str "RD", .str "BK"],
    wire_objects := [(.nat 1, { bom_hash := "hw1" }), (.nat 2, { bom_hash := "hw2" })],
    bom_hash := "hW1" }

/-- The §8 harness: `X1`, `X2`, `W1`. -/
def H8 : Harness :=
  { connectors := [("X1", X1conn), ("X2", X2conn)], cables := [("W1", W1cable)] }

/-- A connector whose reference `"X"` is a pin id and a different pin's
label (cross-space ambiguity). -/
def XCconn : Connector :=
  { designator := "XC", pins := [.nat 1, .str "X"], pinlabels := [.str "X", .str "B"] }

/-- A connector with the duplicated label `"A"` (§8 third scenario). -/
def XDconn : Connector :=
  { designator := "XD", pins := [.nat 1, .nat 2], pinlabels := [.str "A", .str "A"] }

/-- A harness with one connector, used to run `populate_bom` twice. -/
def H0c2 : Harness :=
  { connectors := [("X1", X1conn)] }

/-- The harness after one `populate_bom` call on `H0c2`. -/
def H1c2 : Harness :=
  match populate_bom H0c2 with
  | .ok h => h
  | .error _ => H0c2

/-- The harness after a second `populate_bom` call. -/
def H2c2 : Harness :=
  match populate_bom H1c2 with
  | .ok h => h
  | .error _ => H1c2

/-- A bundle cable with two wires sharing a hash and one attached
additional component. -/
def B9cable : Cable :=
  { designator := "B1", category := some "bundle", bom_hash := "hB1",
    wire_objects := [(.nat 1, { bom_hash := "hwA" }), (.nat 2, { bom_hash := "hwA" })],
    additional_components := [{ bom_hash := "hcomp", bom_qty := 3 }] }

/-- The BOM after aggregating `B9cable` into an empty mapping. -/
def B9res : Bom :=
  match addToInternalBom emptyBom (.cable B9cable) with
  | .ok b => b
  | .error _ => emptyBom

/-! ### Library lemmas about the embedding's small helpers -/

theorem idxOf_lt_length {α : Type} [DecidableEq α] {l : List α} {x : α} (h : x ∈ l) :
    idxOf l x < l.length := by
  induction l with
  | nil => simp at h
  | cons a t ih =>
    by_cases hax : a = x
    · simp [idxOf, hax]
    · have hxt : x ∈ t := by
        rcases List.mem_cons.mp h with h' | h'
        · exact absurd h'.symm hax
        · exact h'
      simp only [idxOf, if_neg hax, List.length_cons]
      exact Nat.succ_lt_succ (ih hxt)

theorem getElem?_idxOf {α : Type} [DecidableEq α] {l : List α} {x : α} (h : x ∈ l) :
    l[idxOf l x]? = some x := by
  induction l with
  | nil => simp at h
  | cons a t ih =>
    by_cases hax : a = x
    · simp [idxOf, hax]
    · have hxt : x ∈ t := by
        rcases List.mem_cons.mp h with h' | h'
        · exact absurd h'.symm hax
        · exact h'
      simp only [idxOf, if_neg hax]
      simpa using ih hxt

theorem idxOf_eq_of_getElem? {α : Type} [DecidableEq α] {l : List α} {x : α} {i : Nat}
    (nd : l.Nodup) (h : l[i]? = some x) : idxOf l x = i := by
  induction l generalizing i with
  | nil => simp at h
  | cons a t ih =>
    rcases List.nodup_cons.mp nd with ⟨hat, hnd⟩
    cases i with
    | zero =>
      simp only [List.getElem?_cons_zero, Option.some.injEq] at h
      simp [idxOf, h]
    | succ j =>
      simp only [List.getElem?_cons_succ] at h
      have hxt : x ∈ t := by
        have := List.getElem?_eq_some_iff.mp h
        exact this.choose_spec ▸ List.getElem_mem _
      have hax : ¬ a = x := fun hax => hat (hax ▸ hxt)
      simp [idxOf, hax, ih hnd h]

theorem lookupD_updateDict_self {α : Type} {d : List (String × α)} {k : String}
    {v : α} (f : α → α) (h : lookupD d k = some v) :
    lookupD (updateDict d k f) k = some (f v) := by
  induction d with
  | nil => simp [lookupD] at h
  | cons kv rest ih =>
    obtain ⟨k', v'⟩ := kv
    by_cases hk : k' = k
    · simp [lookupD, updateDict, hk] at h ⊢
      exact congrArg f h
    · simp only [lookupD, updateDict, if_neg hk] at h ⊢
      exact ih h

theorem lookupD_updateDict_ne {α : Type} {d : List (String × α)} {k k' : String}
    (f : α → α) (hne : k' ≠ k) :
    lookupD (updateDict d k f) k' = lookupD d k' := by
  induction d with
  | nil => simp [lookupD, updateDict]
  | cons kv rest ih =>
    obtain ⟨k₀, v₀⟩ := kv
    by_cases hk : k₀ = k
    · subst hk
      have hne' : ¬ k₀ = k' := fun h => hne h.symm
      simp [lookupD, updateDict, hne']
    · by_cases hk' : k₀ = k'
      · simp [lookupD, updateDict, hk, hk', hne]
      · simp [lookupD, updateDict, hk, hk', ih]

/-! ### Lemmas about `_add` and sequences of `_add` calls -/

theorem addEntry_apply_self (b : Bom) (hash : String) (qty : Nat) (d : DesigArg)
    (cat : Option String) :
    addEntry b hash qty d cat hash =
      some { qty := qtyAt b hash + qty, designators := desigAt b hash ∪ filtDesig d,
             category := cat } := by
  simp only [addEntry, qtyAt, desigAt]
  cases b hash <;> simp

theorem addEntry_apply_ne {k hash : String} (b : Bom) (qty : Nat) (d : DesigArg)
    (cat : Option String) (hk : k ≠ hash) :
    addEntry b hash qty d cat k = b k := by
  simp [addEntry, hk]

theorem qtyAt_addEntry (b : Bom) (hash : String) (qty : Nat) (d : DesigArg)
    (cat : Option String) (k : String) :
    qtyAt (addEntry b hash qty d cat) k = qtyAt b k + (if k = hash then qty else 0) := by
  by_cases hk : k = hash
  · subst hk
    simp [qtyAt, addEntry_apply_self]
  · simp [qtyAt, addEntry_apply_ne b qty d cat hk, hk]

theorem desigAt_addEntry (b : Bom) (hash : String) (qty : Nat) (d : DesigArg)
    (cat : Option String) (k : String) :
    desigAt (addEntry b hash qty d cat) k =
      desigAt b k ∪ (if k = hash then filtDesig d else ∅) := by
  by_cases hk : k = hash
  · subst hk
    simp [desigAt, addEntry_apply_self]
  · simp [desigAt, addEntry_apply_ne b qty d cat hk, hk]

theorem entryObs_addEntry (b : Bom) (hash : String) (qty : Nat) (d : DesigArg)
    (cat : Option String) (k : String) :
    entryObs (addEntry b hash qty d cat) k =
      if k = hash then some (qtyAt b k + qty, desigAt b k ∪ filtDesig d)
      else entryObs b k := by
  by_cases hk : k = hash
  · subst hk
    simp [entryObs, addEntry_apply_self]
  · simp [entryObs, addEntry_apply_ne b qty d cat hk, hk]

theorem applyRecs_nil (b : Bom) : applyRecs b [] = b := rfl

theorem applyRecs_cons (b : Bom) (r : AddRec) (l : List AddRec) :
    applyRecs b (r :: l) = applyRecs (applyRec b r) l := rfl

theorem applyRecs_append (b : Bom) (l₁ l₂ : List AddRec) :
    applyRecs b (l₁ ++ l₂) = applyRecs (applyRecs b l₁) l₂ :=
  List.foldl_append _ _ _ _

theorem sumQty_nil (k : String) : sumQty [] k = 0 := rfl

theorem sumQty_cons (r : AddRec) (l : List AddRec) (k : String) :
    sumQty (r :: l) k = (if r.hash = k then r.qty else 0) + sumQty l k := by
  simp [sumQty]

theorem sumQty_append (l₁ l₂ : List AddRec) (k : String) :
    sumQty (l₁ ++ l₂) k = sumQty l₁ k + sumQty l₂ k := by
  simp [sumQty]

theorem unionDes_nil (k : String) : unionDes [] k = ∅ := rfl

theorem unionDes_cons (r : AddRec) (l : List AddRec) (k : String) :
    unionDes (r :: l) k = (if r.hash = k then filtDesig r.desig else ∅) ∪ unionDes l k := rfl

theorem unionDes_append (l₁ l₂ : List AddRec) (k : String) :
    unionDes (l₁ ++ l₂) k = unionDes l₁ k ∪ unionDes l₂ k := by
  induction l₁ with
  | nil => simp [unionDes_nil, unionDes]
  | cons r t ih =>
    simp only [List.cons_append, unionDes_cons, ih, Finset.union_assoc]

theorem qtyAt_applyRecs (b : Bom) (l : List AddRec) (k : String) :
    qtyAt (applyRecs b l) k = qtyAt b k + sumQty l k := by
  induction l generalizing b with
  | nil => simp [applyRecs_nil, sumQty_nil]
  | cons r t ih =>
    rw [applyRecs_cons, ih, sumQty_cons, applyRec, qtyAt_addEntry]
    have heq : (if k = r.hash then r.qty else 0) = (if r.hash = k then r.qty else 0) := by
      by_cases h : k = r.hash
      · simp [h]
      · simp [h, Ne.symm h]
    rw [heq]
    omega

theorem desigAt_applyRecs (b : Bom) (l : List AddRec) (k : String) :
    desigAt (applyRecs b l) k = desigAt b k ∪ unionDes l k := by
  induction l generalizing b with
  | nil => simp [applyRecs_nil, unionDes_nil]
  | cons r t ih =>
    rw [applyRecs_cons, ih, unionDes_cons, applyRec, desigAt_addEntry, Finset.union_assoc]
    have heq : (if k = r.hash then filtDesig r.desig else ∅)
        = (if r.hash = k then filtDesig r.desig else ∅) := by
      by_cases h : k = r.hash
      · simp [h]
      · simp [h, Ne.symm h]
    rw [heq]

theorem applyRecs_apply_ne (b : Bom) (l : List AddRec) (k : String)
    (h : ∀ r ∈ l, r.hash ≠ k) :
    applyRecs b l k = b k := by
  induction l generalizing b with
  | nil => rfl
  | cons r t ih =>
    rw [applyRecs_cons, ih _ (fun r' hr' => h r' (List.mem_cons_of_mem _ hr'))]
    exact addEntry_apply_ne b r.qty r.desig r.category
      (fun hk => h r (List.mem_cons_self _ _) hk.symm)

theorem itemsRecs_nil : itemsRecs [] = [] := rfl

theorem itemsRecs_cons (i : Item) (rest : List Item) :
    itemsRecs (i :: rest) = recsOfItem i ++ itemsRecs rest := by
  simp [itemsRecs]

/-- A successful `_add_to_internal_bom` call performs exactly the `_add`
calls listed by `recsOfItem`. -/
theorem addToInternalBom_ok {b b' : Bom} {i : Item}
    (h : addToInternalBom b i = .ok b') : b' = applyRecs b (recsOfItem i) := by
  cases i with
  | conn c =>
    by_cases hig : c.ignore_in_bom
    · simp only [addToInternalBom, if_pos hig, Except.ok.injEq] at h
      simp [recsOfItem, hig, applyRecs_nil, h]
    · by_cases hb : c.category = some "bundle"
      · simp [addToInternalBom, hig, hb] at h
      · simp only [addToInternalBom, if_neg hig, if_neg hb, Except.ok.injEq] at h
        have hcond : ¬ (c.ignore_in_bom ∨ c.category = some "bundle") := by
          simp [hig, hb]
        simp [recsOfItem, hcond, h]
  | cable c =>
    by_cases hig : c.ignore_in_bom
    · simp only [addToInternalBom, if_pos hig, Except.ok.injEq] at h
      simp [recsOfItem, hig, applyRecs_nil, h]
    · by_cases hb : c.category = some "bundle"
      · simp only [addToInternalBom, if_neg hig, if_pos hb, Except.ok.injEq] at h
        simp [recsOfItem, hig, hb, h]
      · simp only [addToInternalBom, if_neg hig, if_neg hb, Except.ok.injEq] at h
        simp [recsOfItem, hig, hb, h]
  | addl a =>
    by_cases hig : a.ignore_in_bom
    · simp only [addToInternalBom, if_pos hig, Except.ok.injEq] at h
      simp [recsOfItem, hig, applyRecs_nil, h]
    · simp only [addToInternalBom, if_neg hig, Except.ok.injEq] at h
      simp [recsOfItem, hig, h]

/-- A successful walk performs the concatenation of the per-item `_add`
sequences, in order. -/
theorem addItems_ok {l : List Item} {b b' : Bom}
    (h : addItems l b = .ok b') : b' = applyRecs b (itemsRecs l) := by
  induction l generalizing b with
  | nil =>
    simp only [addItems, Except.ok.injEq] at h
    simp [itemsRecs_nil, applyRecs_nil, h]
  | cons i rest ih =>
    simp only [addItems] at h
    cases hi : addToInternalBom b i with
    | error e => rw [hi] at h; exact absurd h (by simp)
    | ok b2 =>
      rw [hi] at h
      rw [ih h, addToInternalBom_ok hi, itemsRecs_cons, applyRecs_append]

/-- A successful `populate_bom` only replaces the `bom` field, with the
effect of the full `_add` sequence applied to the previous mapping. -/
theorem populate_ok {h h' : Harness} (hp : populate_bom h = .ok h') :
    h' = { h with bom := applyRecs h.bom (itemsRecs (bomItems h)) } := by
  unfold populate_bom at hp
  cases hab : addItems (bomItems h) h.bom with
  | error e => rw [hab] at hp; exact absurd hp (by simp)
  | ok b =>
    rw [hab] at hp
    simp only [Except.ok.injEq] at hp
    rw [← hp, addItems_ok hab]

/-! ### Lemmas about the pin resolver -/

theorem resolvePin_error_iff {name : String} {c : Connector} {pin : Ref} {e : WvError} :
    resolvePin name c pin = .error e ↔ resolvePinStep name c pin = .error e := by
  unfold resolvePin
  cases h : resolvePinStep name c pin with
  | error e' => simp
  | ok pb => cases pb; simp

/-- A reference matching neither space fails with "not found". -/
theorem resolvePinStep_notFound (name : String) {c : Connector} {pin : Ref}
    (h1 : pin ∉ c.pins) (h2 : pin ∉ c.pinlabels) :
    resolvePinStep name c pin = .error (.pinNotFound name pin) := by
  simp [resolvePinStep, h1, h2]

/-- A direct pin-index reference that is no label resolves to itself, not
through the label branch. -/
theorem resolvePinStep_direct (name : String) {c : Connector} {pin : Ref}
    (h1 : pin ∈ c.pins) (h2 : pin ∉ c.pinlabels) :
    resolvePinStep name c pin = .ok (pin, false) := by
  simp [resolvePinStep, h1, h2]

/-- A uniquely occurring label that is not cross-space ambiguous resolves
through the label branch to the pin at the label's position. -/
theorem resolvePinStep_label (name : String) {c : Connector} {pin : Ref}
    (hmem : pin ∈ c.pinlabels) (hcnt : c.pinlabels.count pin = 1)
    (hcross : pin ∈ c.pins → idxOf c.pins pin = idxOf c.pinlabels pin)
    (hlt : idxOf c.pinlabels pin < c.pins.length) :
    resolvePinStep name c pin = .ok (c.pins.get ⟨idxOf c.pinlabels pin, hlt⟩, true) := by
  have hcond : ¬ (pin ∈ c.pins ∧ pin ∈ c.pinlabels ∧
      idxOf c.pins pin ≠ idxOf c.pinlabels pin) := by
    rintro ⟨hp, -, hne⟩
    exact hne (hcross hp)
  have hget : c.pins[idxOf c.pinlabels pin]? = some (c.pins.get ⟨idxOf c.pinlabels pin, hlt⟩) := by
    rw [List.getElem?_eq_getElem hlt]
    simp [List.get_eq_getElem]
  have hmem' : c.pins.get ⟨idxOf c.pinlabels pin, hlt⟩ ∈ c.pins := List.get_mem _ _ hlt
  simp only [resolvePinStep, if_neg hcond, if_pos hmem, hcnt]
  simp [hget, hmem']

/-- With the cross-space condition false, the resolver never reports the
cross-space ambiguity. -/
theorem resolvePinStep_ne_ambiguous {name : String} {c : Connector} {pin : Ref}
    (hcond : ¬ (pin ∈ c.pins ∧ pin ∈ c.pinlabels ∧
      idxOf c.pins pin ≠ idxOf c.pinlabels pin)) (q : Ref) :
    resolvePinStep name c pin ≠ .error (.pinAmbiguous name q) := by
  simp only [resolvePinStep, if_neg hcond]
  by_cases hmem : pin ∈ c.pinlabels
  · simp only [if_pos hmem]
    by_cases hdup : 1 < c.pinlabels.count pin
    · simp [hdup]
    · simp only [if_neg hdup]
      cases hget : c.pins[idxOf c.pinlabels pin]? with
      | some p =>
        by_cases hp : p ∈ c.pins
        · simp [hp]
        · simp [hp]
      | none => simp
  · simp only [if_neg hmem]
    by_cases hp : pin ∈ c.pins
    · simp [hp]
    · simp [hp]

/-! ### Claim C4 -/

/-- C4: for a pin reference of a `connect` call that is present in both the
pin-index list and the pin-label list of the (registered) connector —
`connect` resolves each endpoint with this resolver — the resolver raises
the cross-space ambiguity error exactly when the two matches point at
different pins, i.e. when the pin sitting at the (first) label match's
position is not the referenced pin itself; when both matches point at the
same pin, resolution proceeds past this check. -/
theorem C4_cross_space_ambiguity (name : String) (c : Connector) (pin : Ref)
    (hnd : c.pins.Nodup) (h1 : pin ∈ c.pins) (h2 : pin ∈ c.pinlabels) :
    resolvePin name c pin = .error (.pinAmbiguous name pin) ↔
      c.pins[idxOf c.pinlabels pin]? ≠ some pin := by
  have hiff : c.pins[idxOf c.pinlabels pin]? = some pin ↔
      idxOf c.pins pin = idxOf c.pinlabels pin := by
    constructor
    · intro he
      exact idxOf_eq_of_getElem? hnd he
    · intro he
      rw [← he]
      exact getElem?_idxOf h1
  by_cases hne : idxOf c.pins pin = idxOf c.pinlabels pin
  · constructor
    · intro herr
      have hcond : ¬ (pin ∈ c.pins ∧ pin ∈ c.pinlabels ∧
          idxOf c.pins pin ≠ idxOf c.pinlabels pin) := by
        rintro ⟨-, -, hx⟩
        exact hx hne
      exact absurd (resolvePin_error_iff.mp herr) (resolvePinStep_ne_ambiguous hcond pin)
    · intro hrhs
      exact absurd (hiff.mpr hne) hrhs
  · constructor
    · intro _ he
      exact hne (hiff.mp he)
    · intro _
      have hcond : pin ∈ c.pins ∧ pin ∈ c.pinlabels ∧
          idxOf c.pins pin ≠ idxOf c.pinlabels pin := ⟨h1, h2, hne⟩
      rw [resolvePin_error_iff]
      simp only [resolvePinStep, if_pos hcond]

/-- Witness for C4 on `XCconn`: `"X"` is pin 2's id and pin 1's label, so the
cross-space ambiguity error is raised. -/
theorem C4_witness :
    resolvePin "XC" XCconn (.str "X") = .error (.pinAmbiguous "XC" (.str "X")) :=
  (C4_cross_space_ambiguity "XC" XCconn (.str "X") (by decide) (by decide)
    (by decide)).mpr (by decide)

/-! ### Claim C5 -/

/-- C5: a pin reference matching a pin label occurring more than once raises
an ambiguity error (the cross-space one or the duplicate-label one), and a
reference matching a label occurring exactly once — when not cross-space
ambiguous — resolves to the pin at that label's position in the pin list. -/
theorem C5_label_resolution (name : String) (c : Connector) (pin : Ref) :
    (pin ∈ c.pinlabels → 2 ≤ c.pinlabels.count pin →
      resolvePin name c pin = .error (.pinAmbiguous name pin) ∨
      resolvePin name c pin = .error (.pinDupLabel name pin))
    ∧ (pin ∈ c.pinlabels → c.pinlabels.count pin = 1 →
      (pin ∈ c.pins → idxOf c.pins pin = idxOf c.pinlabels pin) →
      ∀ hlt : idxOf c.pinlabels pin < c.pins.length,
      resolvePin name c pin = .ok (c.pins.get ⟨idxOf c.pinlabels pin, hlt⟩)) := by
  constructor
  · intro hmem hcnt
    by_cases hcond : pin ∈ c.pins ∧ pin ∈ c.pinlabels ∧
        idxOf c.pins pin ≠ idxOf c.pinlabels pin
    · left
      rw [resolvePin_error_iff]
      simp only [resolvePinStep, if_pos hcond]
    · right
      rw [resolvePin_error_iff]
      have hdup : 1 < c.pinlabels.count pin := hcnt
      simp only [resolvePinStep, if_neg hcond, if_pos hmem, if_pos hdup]
  · intro hmem hcnt hcross hlt
    have hstep := resolvePinStep_label name hmem hcnt hcross hlt
    unfold resolvePin
    rw [hstep]

/-- Witness for C5: the duplicated label `"A"` of `XDconn` raises an
ambiguity error, and the unique label `"GND"` of `X1conn` resolves to
pin 1. -/
theorem C5_witness :
    (resolvePin "XD" XDconn (.str "A") = .error (.pinAmbiguous "XD" (.str "A")) ∨
     resolvePin "XD" XDconn (.str "A") = .error (.pinDupLabel "XD" (.str "A")))
    ∧ resolvePin "X1" X1conn (.str "GND") = .ok (.nat 1) := by
  constructor
  · exact (C5_label_resolution "XD" XDconn (.str "A")).1 (by decide) (by decide)
  · exact ((C5_label_resolution "X1" X1conn (.str "GND")).2 (by decide) (by decide)
      (by decide) (by decide)).trans (by decide)

/-! ### Claim C6 -/

/-- C6: a `connect` call on a registered connector whose (from-endpoint) pin
reference matches neither the pin-index list nor the pin-label list fails
with the not-found error carrying the connector name and the offending
reference. -/
theorem C6_reference_not_found (h : Harness) (n : String) (c : Connector)
    (from_pin : Ref) (via_name : String) (via_wire : Ref)
    (to_name : Option String) (to_pin : Ref)
    (hc : lookupD h.connectors n = some c)
    (h1 : from_pin ∉ c.pins) (h2 : from_pin ∉ c.pinlabels) :
    connect h (some n) from_pin via_name via_wire to_name to_pin
      = .error (.pinNotFound n from_pin) := by
  have hstep := resolvePinStep_notFound n h1 h2
  have hend : endpointStep h (some n) from_pin (some n) to_name from_pin to_pin
      = .error (.pinNotFound n from_pin) := by
    simp [endpointStep, hc, hstep]
  have hre : resolveEndpoints h (some n) from_pin to_name to_pin
      = .error (.pinNotFound n from_pin) := by
    simp [resolveEndpoints, hend]
  simp [connect, hre]

/-- Witness for C6, the spec's §8 second scenario:
`connect("X1","BOGUS","W1","RD","X2",1)` raises the not-found error naming
`X1` and `BOGUS`. -/
theorem C6_witness :
    connect H8 (some "X1") (.str "BOGUS") "W1" (.str "RD") (some "X2") (.nat 1)
      = .error (.pinNotFound "X1" (.str "BOGUS")) :=
  C6_reference_not_found H8 "X1" X1conn (.str "BOGUS") "W1" (.str "RD")
    (some "X2") (.nat 1) rfl (by decide) (by decide)

/-! ### Claim C3 -/

/-- C3 counterexample: on the §8 harness, a `connect` whose `via_wire`
reference `"BOGUS"` matches neither `W1`'s wire indices nor its colors nor
its wire labels does not fail at all — it succeeds and records the
unresolved reference verbatim on the connection list, instead of raising
the claimed reference-not-found error. -/
theorem C3_counterexample :
    (connect H8 none (.nat 1) "W1" (.str "BOGUS") none (.nat 1)).map
      (fun h' => (lookupD h'.cables "W1").map (fun c => c.connections)) =
      .ok (some [{ from_pin := none, wire := .str "BOGUS", to_pin := none }]) := by
  decide

/-- C3 amended: the wire resolver of `connect` implements only the
ambiguity and color/wire-label steps; a `via_wire` reference matching
neither the color list nor the wire-label list is passed through unchanged
and recorded as-is on the cable's connection list — no reference-not-found
failure exists for wire references. -/
theorem C3_wire_passthrough (h : Harness) (via_name : String) (via_wire : Ref)
    (cbl : Cable) (fp tp : Ref)
    (hcab : lookupD h.cables via_name = some cbl)
    (h1 : via_wire ∉ cbl.colors) (h2 : via_wire ∉ cbl.wirelabels) :
    ∃ h', connect h none fp via_name via_wire none tp = .ok h' ∧
      lookupD h'.cables via_name =
        some { cbl with connections := cbl.connections ++
          [{ from_pin := none, wire := via_wire, to_pin := none }] } := by
  have hw : resolveWire via_name cbl via_wire = .ok via_wire := by
    simp [resolveWire, h1, h2]
  unfold connect
  rw [show resolveEndpoints h none fp none tp = .ok (fp, tp) from rfl]
  simp only [hcab, hw, pinObjFor]
  refine ⟨_, rfl, ?_⟩
  rw [show (activateIfPresent (activateIfPresent
      { h with cables := (updateDict h.cables via_name
          (fun c => cableConnect c none via_wire none)) }
      none fp Side.right true) none tp Side.left true).cables
    = updateDict h.cables via_name (fun c => cableConnect c none via_wire none) from rfl]
  rw [lookupD_updateDict_self _ hcab]
  rfl

/-- Witness for the amended C3 on the §8 harness. -/
theorem C3_witness :
    ∃ h', connect H8 none (.nat 1) "W1" (.str "BOGUS") none (.nat 1) = .ok h' ∧
      lookupD h'.cables "W1" =
        some { W1cable with connections := W1cable.connections ++
          [{ from_pin := none, wire := .str "BOGUS", to_pin := none }] } :=
  C3_wire_passthrough H8 "W1" (.str "BOGUS") W1cable (.nat 1) (.nat 1) rfl
    (by decide) (by decide)

/-! ### Claim C1 -/

/-- C1 counterexample: the §4.1 resolver (as run by `connect`) maps the
unique pin label `"GND"` of `X1` to pin 1, but `add_mate_pin` on the very
same reference raises a key error instead of resolving it: `add_mate_pin`
does not run the §4.1 reference-resolution algorithm. -/
theorem C1_counterexample :
    resolvePin "X1" X1conn (.str "GND") = .ok (.nat 1) ∧
    errOf (add_mate_pin H8 "X1" (.str "GND") "X2" (.nat 1) "<->")
      = some (.keyErrorPin "X1" (.str "GND")) :=
  ⟨by decide, by decide⟩

/-- C1 amended: `add_mate_pin` looks each endpoint up directly by pin
identifier (no label resolution, no ambiguity checks; an unknown connector
or pin id raises a key error); on success it records a pin-level `MatePin`
and marks both pins active with `is_connection = false`, the source pin on
side right and the destination pin on side left. -/
theorem C1_mate_pin_direct (h : Harness) (fn tn : String) (fp tp : Ref)
    (s : String) (fc tc : Connector)
    (hf : lookupD h.connectors fn = some fc) (hfp : fp ∈ fc.pins)
    (ht : lookupD h.connectors tn = some tc) (htp : tp ∈ tc.pins) :
    ∃ h', add_mate_pin h fn fp tn tp s = .ok h' ∧
      h'.mates = h.mates ++ [Mate.pin { conn := fn, pin := fp } { conn := tn, pin := tp }
        { direction := parse_arrow_str s, weight := ArrowWeight.single }] ∧
      pinStateIn h' tn tp
        = some { active := true, side := some Side.left, is_connection := some false } ∧
      (¬ (fn = tn ∧ fp = tp) →
        pinStateIn h' fn fp
          = some { active := true, side := some Side.right, is_connection := some false }) := by
  unfold add_mate_pin
  simp only [hf, ht, hfp, htp, if_true, ite_true]
  refine ⟨_, rfl, rfl, ?_, ?_⟩
  · -- destination pin: last activation wins, side left, not a connection
    show pinStateIn { h with
        mates := h.mates ++ [Mate.pin { conn := fn, pin := fp } { conn := tn, pin := tp }
          { direction := parse_arrow_str s, weight := ArrowWeight.single }]
        connectors := updateDict
          (updateDict h.connectors fn (fun c => activate_pin c fp Side.right false)) tn
          (fun c => activate_pin c tp Side.left false) } tn tp = _
    unfold pinStateIn
    by_cases htn : fn = tn
    · subst htn
      have l1 : lookupD (updateDict h.connectors fn (fun c => activate_pin c fp Side.right false))
          fn = some (activate_pin fc fp Side.right false) := lookupD_updateDict_self _ hf
      have l2 := lookupD_updateDict_self (fun c => activate_pin c tp Side.left false) l1
      simp only [l2]
      simp [activate_pin]
    · have l1 : lookupD (updateDict h.connectors fn (fun c => activate_pin c fp Side.right false))
          tn = lookupD h.connectors tn :=
        lookupD_updateDict_ne _ (fun hx => htn hx.symm)
      have l2 := lookupD_updateDict_self (fun c => activate_pin c tp Side.left false)
        (l1.trans ht)
      simp only [l2]
      simp [activate_pin]
  · -- source pin, when it is not also the destination pin
    intro hne
    show pinStateIn { h with
        mates := h.mates ++ [Mate.pin { conn := fn, pin := fp } { conn := tn, pin := tp }
          { direction := parse_arrow_str s, weight := ArrowWeight.single }]
        connectors := updateDict
          (updateDict h.connectors fn (fun c => activate_pin c fp Side.right false)) tn
          (fun c => activate_pin c tp Side.left false) } fn fp = _
    unfold pinStateIn
    by_cases htn : fn = tn
    · subst htn
      have hptp : ¬ fp = tp := fun hx => hne ⟨rfl, hx⟩
      have l1 : lookupD (updateDict h.connectors fn (fun c => activate_pin c fp Side.right false))
          fn = some (activate_pin fc fp Side.right false) := lookupD_updateDict_self _ hf
      have l2 := lookupD_updateDict_self (fun c => activate_pin c tp Side.left false) l1
      simp only [l2]
      simp [activate_pin, hptp]
    · have l2 : lookupD (updateDict
          (updateDict h.connectors fn (fun c => activate_pin c fp Side.right false)) tn
          (fun c => activate_pin c tp Side.left false)) fn =
          lookupD (updateDict h.connectors fn (fun c => activate_pin c fp Side.right false)) fn :=
        lookupD_updateDict_ne _ htn
      have l1 : lookupD (updateDict h.connectors fn (fun c => activate_pin c fp Side.right false))
          fn = some (activate_pin fc fp Side.right false) := lookupD_updateDict_self _ hf
      simp only [l2, l1]
      simp [activate_pin]

/-- Witness for the amended C1: a mate between `X1.2` and `X2.1`. -/
theorem C1_witness :
    ∃ h', add_mate_pin H8 "X1" (.nat 2) "X2" (.nat 1) "<->" = .ok h' ∧
      h'.mates = H8.mates ++ [Mate.pin { conn := "X1", pin := .nat 2 }
        { conn := "X2", pin := .nat 1 }
        { direction := parse_arrow_str "<->", weight := ArrowWeight.single }] ∧
      pinStateIn h' "X2" (.nat 1)
        = some { active := true, side := some Side.left, is_connection := some false } ∧
      (¬ ("X1" = "X2" ∧ (Ref.nat 2) = (Ref.nat 1)) →
        pinStateIn h' "X1" (.nat 2)
          = some { active := true, side := some Side.right, is_connection := some false }) :=
  C1_mate_pin_direct H8 "X1" "X2" (.nat 2) (.nat 1) "<->" X1conn X2conn rfl (by decide)
    rfl (by decide)

/-! ### Claim C10 -/

/-- The activation step never touches the cable dictionary. -/
theorem activateIfPresent_cables (h : Harness) (name : Option String) (pin : Ref)
    (side : Side) (b : Bool) : (activateIfPresent h name pin side b).cables = h.cables := by
  unfold activateIfPresent
  cases name with
  | none => rfl
  | some n => by_cases hx : (lookupD h.connectors n).isSome <;> simp [hx]

/-- C10 counterexample: `X1.GND` resolves to pin 1 (the from pin), but in
`connect(X1, GND, W1, 1, X1, VCC)` the recorded endpoints are both pin 2 —
the `to` iteration re-resolves the originally captured `to_pin` label and
overwrites both variables — so the claim that both recorded endpoints are
always the *from* pin is false. -/
theorem C10_counterexample :
    resolvePin "X1" X1conn (.str "GND") = .ok (.nat 1) ∧
    (connect H8 (some "X1") (.str "GND") "W1" (.nat 1) (some "X1") (.str "VCC")).map
      (fun h' => (lookupD h'.cables "W1").map (fun c => c.connections)) =
      .ok (some [{ from_pin := some { conn := "X1", pin := .nat 2 }, wire := .nat 1,
                   to_pin := some { conn := "X1", pin := .nat 2 } }]) ∧
    Ref.nat 2 ≠ Ref.nat 1 :=
  ⟨by decide, by decide, by decide⟩

/-- C10 amended: when both endpoints name the same registered connector and
`from_pin` resolves through a pin label, the first loop iteration overwrites
`to_pin` as well (both `name == from_name` and `name == to_name` fire); if
the originally captured `to_pin` is a direct pin index (does not itself
resolve through a label), the caller's `to_pin` is discarded and both
recorded endpoints are the from pin.  (If the original `to_pin` also
resolves through a label, the second iteration overwrites both variables
with the *to* pin instead, as the counterexample shows.) -/
theorem C10_same_connector_label_overwrite (h : Harness) (n : String) (c : Connector)
    (from_pin to_pin : Ref) (via_name : String) (via_wire w : Ref) (cbl : Cable)
    (hc : lookupD h.connectors n = some c)
    (hf1 : from_pin ∈ c.pinlabels) (hf2 : c.pinlabels.count from_pin = 1)
    (hf3 : from_pin ∈ c.pins → idxOf c.pins from_pin = idxOf c.pinlabels from_pin)
    (hlt : idxOf c.pinlabels from_pin < c.pins.length)
    (ht1 : to_pin ∉ c.pinlabels) (ht2 : to_pin ∈ c.pins)
    (hcab : lookupD h.cables via_name = some cbl)
    (hw : resolveWire via_name cbl via_wire = .ok w) :
    ∃ h', connect h (some n) from_pin via_name via_wire (some n) to_pin = .ok h' ∧
      lookupD h'.cables via_name = some { cbl with connections := cbl.connections ++
        [{ from_pin := some ⟨n, c.pins.get ⟨idxOf c.pinlabels from_pin, hlt⟩⟩,
           wire := w,
           to_pin := some ⟨n, c.pins.get ⟨idxOf c.pinlabels from_pin, hlt⟩⟩ }] } := by
  have hstep1 := resolvePinStep_label n hf1 hf2 hf3 hlt
  have hstep2 := resolvePinStep_direct n ht2 ht1
  have hend1 : endpointStep h (some n) from_pin (some n) (some n) from_pin to_pin
      = .ok (c.pins.get ⟨idxOf c.pinlabels from_pin, hlt⟩,
             c.pins.get ⟨idxOf c.pinlabels from_pin, hlt⟩) := by
    simp [endpointStep, hc, hstep1]
  have hend2 : endpointStep h (some n) to_pin (some n) (some n)
      (c.pins.get ⟨idxOf c.pinlabels from_pin, hlt⟩)
      (c.pins.get ⟨idxOf c.pinlabels from_pin, hlt⟩)
      = .ok (c.pins.get ⟨idxOf c.pinlabels from_pin, hlt⟩,
             c.pins.get ⟨idxOf c.pinlabels from_pin, hlt⟩) := by
    simp [endpointStep, hc, hstep2]
  have hre : resolveEndpoints h (some n) from_pin (some n) to_pin
      = .ok (c.pins.get ⟨idxOf c.pinlabels from_pin, hlt⟩,
             c.pins.get ⟨idxOf c.pinlabels from_pin, hlt⟩) := by
    unfold resolveEndpoints
    rw [hend1]
    exact hend2
  have hpmem : c.pins.get ⟨idxOf c.pinlabels from_pin, hlt⟩ ∈ c.pins :=
    List.get_mem _ _ hlt
  have hobj : pinObjFor h (some n) (c.pins.get ⟨idxOf c.pinlabels from_pin, hlt⟩)
      = .ok (some { conn := n, pin := c.pins.get ⟨idxOf c.pinlabels from_pin, hlt⟩ }) := by
    simp [pinObjFor, hc, hpmem]
  unfold connect
  rw [hre]
  simp only [hcab, hw, hobj]
  refine ⟨_, rfl, ?_⟩
  rw [activateIfPresent_cables, activateIfPresent_cables]
  show lookupD (updateDict h.cables via_name
      (fun cb => cableConnect cb
        (some ⟨n, c.pins.get ⟨idxOf c.pinlabels from_pin, hlt⟩⟩) w
        (some ⟨n, c.pins.get ⟨idxOf c.pinlabels from_pin, hlt⟩⟩))) via_name = _
  rw [lookupD_updateDict_self _ hcab]
  rfl

/-- Witness for the amended C10: `connect(X1, GND, W1, RD, X1, 2)` records
both endpoints as `X1.1`, discarding the caller's `to_pin = 2`. -/
theorem C10_witness :
    ∃ h', connect H8 (some "X1") (.str "GND") "W1" (.str "RD") (some "X1") (.nat 2)
        = .ok h' ∧
      lookupD h'.cables "W1" = some { W1cable with connections := W1cable.connections ++
        [{ from_pin := some { conn := "X1", pin := .nat 1 }, wire := .nat 1,
           to_pin := some { conn := "X1", pin := .nat 1 } }] } := by
  obtain ⟨h', he, hl⟩ := C10_same_connector_label_overwrite H8 "X1" X1conn (.str "GND")
    (.nat 2) "W1" (.str "RD") (.nat 1) W1cable rfl (by decide) (by decide) (by decide)
    (by decide) (by decide) (by decide) rfl (by decide)
  refine ⟨h', he, ?_⟩
  rw [hl]
  decide

/-! ### Claim C2 -/

/-- C2 counterexample: `populate_bom` does not rebuild the mapping from
scratch — on a harness with one connector, the entry after two calls
differs from the entry after one call (the quantity doubles). -/
theorem C2_counterexample :
    populate_bom H0c2 = .ok H1c2 ∧ populate_bom H1c2 = .ok H2c2 ∧
      H2c2.bom "hX1" ≠ H1c2.bom "hX1" :=
  ⟨rfl, rfl, by decide⟩

/-- C2 amended: `populate_bom` accumulates into the persistent `bom`
mapping initialized at construction; a second call adds every quantity
again (so, relative to the state before the first call, quantities double),
while the designator sets — being unions of the same sets — are unchanged
by the second call. -/
theorem C2_populate_accumulates (h h' h'' : Harness)
    (h1 : populate_bom h = .ok h') (h2 : populate_bom h' = .ok h'') (k : String) :
    qtyAt h''.bom k + qtyAt h.bom k = qtyAt h'.bom k + qtyAt h'.bom k ∧
    desigAt h''.bom k = desigAt h'.bom k := by
  have e1 := populate_ok h1
  have e2 := populate_ok h2
  have hbi : bomItems h' = bomItems h := by rw [e1]; rfl
  have hb1 : h'.bom = applyRecs h.bom (itemsRecs (bomItems h)) := by rw [e1]
  have hb2 : h''.bom = applyRecs h'.bom (itemsRecs (bomItems h)) := by
    rw [e2, hbi]
  constructor
  · rw [hb2, hb1, qtyAt_applyRecs, qtyAt_applyRecs]
    omega
  · rw [hb2, hb1, desigAt_applyRecs, desigAt_applyRecs, Finset.union_assoc,
      Finset.union_self]

/-- Witness for the amended C2 on the one-connector harness. -/
theorem C2_witness :
    qtyAt H2c2.bom "hX1" + qtyAt H0c2.bom "hX1"
        = qtyAt H1c2.bom "hX1" + qtyAt H1c2.bom "hX1" ∧
      desigAt H2c2.bom "hX1" = desigAt H1c2.bom "hX1" :=
  C2_populate_accumulates H0c2 H1c2 H2c2 rfl rfl "hX1"

/-! ### Claim C7 -/

/-- C7: BOM aggregation is additive and order-independent in quantity and
designator set: for any two `_add` argument tuples `A` and `B` and any
starting mapping, running the calls in order `[A, A, B]` and in order
`[A, B, A]` leaves the same quantity and the same designator set under `A`'s
content hash (the category, written last-wins, is deliberately outside the
comparison). -/
theorem C7_bom_additive_order_independent (b : Bom) (A B : AddRec) :
    entryObs (applyRecs b [A, A, B]) A.hash = entryObs (applyRecs b [A, B, A]) A.hash := by
  by_cases hk : A.hash = B.hash
  · simp only [applyRecs, List.foldl_cons, List.foldl_nil, applyRec, entryObs_addEntry,
      qtyAt_addEntry, desigAt_addEntry, ← hk, if_pos, ite_true, Option.some.injEq,
      Prod.mk.injEq]
    constructor
    · omega
    · exact Finset.union_right_comm _ _ _
  · have hk' : ¬ A.hash = B.hash := hk
    simp only [applyRecs, List.foldl_cons, List.foldl_nil, applyRec, entryObs_addEntry,
      qtyAt_addEntry, desigAt_addEntry, if_pos, ite_true, if_neg hk', ite_false,
      Option.some.injEq, Prod.mk.injEq]
    constructor
    · omega
    · simp

/-! ### Claim C8 -/

/-- Any sequence of `_add` calls preserves the invariant that no recorded
designator starts with the autogenerated prefix. -/
theorem applyRecs_designator_invariant (l : List AddRec) (b : Bom)
    (hb : ∀ k e, b k = some e → ∀ d ∈ e.designators,
      strStartsWith AUTOGENERATED_TAG d = false) :
    ∀ k e, applyRecs b l k = some e → ∀ d ∈ e.designators,
      strStartsWith AUTOGENERATED_TAG d = false := by
  induction l generalizing b with
  | nil => simpa [applyRecs_nil] using hb
  | cons r t ih =>
    rw [applyRecs_cons]
    apply ih
    intro k e hk d hd
    by_cases hkr : k = r.hash
    · subst hkr
      rw [applyRec, addEntry_apply_self] at hk
      simp only [Option.some.injEq] at hk
      subst hk
      simp only at hd
      rcases Finset.mem_union.mp hd with hprev | hnew
      · unfold desigAt at hprev
        cases hbk : b r.hash with
        | some e0 =>
          rw [hbk] at hprev
          exact hb r.hash e0 hbk d hprev
        | none =>
          rw [hbk] at hprev
          simp at hprev
      · have hkeep : keepDesig d = true := by
          have hx := hnew
          simp only [filtDesig, List.mem_toFinset, List.mem_filter] at hx
          exact hx.2
        simp only [keepDesig, Bool.and_eq_true, Bool.not_eq_true'] at hkeep
        exact hkeep.2
    · rw [applyRec, addEntry_apply_ne _ _ _ _ hkr] at hk
      exact hb k e hk d hd

/-- C8: starting from the empty BOM of a fresh harness, no sequence of
`_add` calls ever puts a designator carrying the autogenerated prefix into
any entry's designator set. -/
theorem C8_no_autogenerated_designators (l : List AddRec) (k : String) (e : BomEntry)
    (d : String) (he : applyRecs emptyBom l k = some e) (hd : d ∈ e.designators) :
    strStartsWith AUTOGENERATED_TAG d = false := by
  refine applyRecs_designator_invariant l emptyBom ?_ k e he d hd
  intro k' e' he'
  simp [emptyBom] at he'

/-- Witness for C8: one `_add` call with designator `"X1"`. -/
theorem C8_witness : strStartsWith AUTOGENERATED_TAG "X1" = false :=
  C8_no_autogenerated_designators
    [{ hash := "h", qty := 1, desig := .one "X1", category := none }] "h"
    { qty := 1, designators := {"X1"}, category := none } "X1" (by decide) (by decide)

/-! ### Claim C9 -/

theorem sumQty_wireRecs (ws : List (Ref × Wire)) (q : Nat) (dg : DesigArg)
    (cat : Option String) (k : String) :
    sumQty (ws.map fun w => AddRec.mk w.2.bom_hash q dg cat) k
      = q * ws.countP (fun w => w.2.bom_hash == k) := by
  induction ws with
  | nil => rfl
  | cons w t ih =>
    rw [List.map_cons, sumQty_cons, ih, List.countP_cons]
    by_cases hk : w.2.bom_hash = k
    · simp [hk, Nat.mul_succ]
      omega
    · simp [hk]

theorem compRecs_cons_ignored (cat dg : String) (a : AdditionalComponent)
    (t : List AdditionalComponent) (hig : a.ignore_in_bom = true) :
    compRecs cat dg (a :: t) = compRecs cat dg t := by
  simp [compRecs, List.filterMap_cons, hig]

theorem compRecs_cons_kept (cat dg : String) (a : AdditionalComponent)
    (t : List AdditionalComponent) (hig : a.ignore_in_bom = false) :
    compRecs cat dg (a :: t) =
      AddRec.mk a.bom_hash a.bom_qty (.one dg) (some (cat ++ "_additional"))
        :: compRecs cat dg t := by
  simp [compRecs, List.filterMap_cons, hig]

theorem sumQty_compRecs (cat dg : String) (comps : List AdditionalComponent) (k : String) :
    sumQty (compRecs cat dg comps) k =
      ((comps.filter fun comp => !comp.ignore_in_bom).map
        fun comp => if comp.bom_hash = k then comp.bom_qty else 0).sum := by
  induction comps with
  | nil => rfl
  | cons a t ih =>
    by_cases hig : a.ignore_in_bom
    · rw [compRecs_cons_ignored cat dg a t hig, ih]
      congr 1
      simp [List.filter_cons, hig]
    · rw [compRecs_cons_kept cat dg a t (by simpa using hig), sumQty_cons, ih]
      simp [List.filter_cons, hig]

theorem any_wireRecs (ws : List (Ref × Wire)) (q : Nat) (dg : DesigArg)
    (cat : Option String) (k : String) :
    ((ws.map fun w => AddRec.mk w.2.bom_hash q dg cat).any fun r => r.hash == k)
      = ws.any (fun w => w.2.bom_hash == k) := by
  induction ws with
  | nil => rfl
  | cons w t ih => simp [ih]

theorem any_compRecs (cat dg : String) (comps : List AdditionalComponent) (k : String) :
    (compRecs cat dg comps).any (fun r => r.hash == k)
      = (comps.filter fun comp => !comp.ignore_in_bom).any
          (fun comp => comp.bom_hash == k) := by
  induction comps with
  | nil => rfl
  | cons a t ih =>
    by_cases hig : a.ignore_in_bom
    · rw [compRecs_cons_ignored cat dg a t hig, ih]
      congr 1
      simp [List.filter_cons, hig]
    · rw [compRecs_cons_kept cat dg a t (by simpa using hig)]
      simp [List.filter_cons, hig, ih]

theorem unionDes_all_same (l : List AddRec) (dg : DesigArg)
    (hall : ∀ r ∈ l, r.desig = dg) (k : String) :
    unionDes l k = if l.any (fun r => r.hash == k) then filtDesig dg else ∅ := by
  induction l with
  | nil => simp [unionDes_nil]
  | cons r t ih =>
    rw [unionDes_cons, ih (fun r' hr' => hall r' (List.mem_cons_of_mem _ hr'))]
    have hr : r.desig = dg := hall r (List.mem_cons_self _ _)
    by_cases hk : r.hash = k
    · by_cases ht : t.any (fun r => r.hash == k)
      · simp [hk, hr, ht, Finset.union_self]
      · simp [hk, hr, ht]
    · simp [hk]

/-- C9: for a (non-ignored) bundle-category cable, the BOM walk leaves the
cable's own content hash untouched whenever no wire or attached component
shares that hash — no entry is added for the bundle itself — and instead
performs exactly one addition per wire object, keyed by the wire's content
hash and carrying the bundle's own quantity and designator (attached
additional components contribute their own separate additions, also under
the bundle's designator). -/
theorem C9_bundle_per_wire (b : Bom) (c : Cable)
    (hcat : c.category = some "bundle") (hig : c.ignore_in_bom = false) (b' : Bom)
    (hok : addToInternalBom b (.cable c) = .ok b') :
    ((∀ w ∈ c.wire_objects, w.2.bom_hash ≠ c.bom_hash) →
     (∀ comp ∈ c.additional_components, comp.ignore_in_bom = false →
        comp.bom_hash ≠ c.bom_hash) →
      b' c.bom_hash = b c.bom_hash)
    ∧ (∀ k, qtyAt b' k = qtyAt b k
        + c.bom_qty * c.wire_objects.countP (fun w => w.2.bom_hash == k)
        + ((c.additional_components.filter fun comp => !comp.ignore_in_bom).map
            fun comp => if comp.bom_hash = k then comp.bom_qty else 0).sum)
    ∧ (∀ k, desigAt b' k = desigAt b k ∪
        (if (c.wire_objects.any fun w => w.2.bom_hash == k)
            || ((c.additional_components.filter fun comp => !comp.ignore_in_bom).any
                fun comp => comp.bom_hash == k)
         then filtDesig (.one c.designator) else ∅)) := by
  have hrecs := addToInternalBom_ok hok
  have hr : recsOfItem (.cable c) =
      (c.wire_objects.map fun w =>
        AddRec.mk w.2.bom_hash c.bom_qty (.one c.designator) (some "wire"))
      ++ compRecs "wire" c.designator c.additional_components := by
    simp [recsOfItem, hig, hcat]
  rw [hr] at hrecs
  subst hrecs
  refine ⟨?_, ?_, ?_⟩
  · intro hw hcomp
    apply applyRecs_apply_ne
    intro r hrmem
    rcases List.mem_append.mp hrmem with hwr | hcr
    · obtain ⟨w, hwmem, rfl⟩ := List.mem_map.mp hwr
      exact hw w hwmem
    · obtain ⟨comp, hcmem, heq⟩ := List.mem_filterMap.mp hcr
      by_cases hcig : comp.ignore_in_bom
      · rw [if_pos hcig] at heq
        exact absurd heq (by simp)
      · rw [if_neg hcig] at heq
        simp only [Option.some.injEq] at heq
        rw [← heq]
        exact hcomp comp hcmem (by simpa using hcig)
  · intro k
    rw [qtyAt_applyRecs, sumQty_append, sumQty_wireRecs, sumQty_compRecs]
    omega
  · intro k
    have hall : ∀ r ∈ (c.wire_objects.map fun w =>
        AddRec.mk w.2.bom_hash c.bom_qty (.one c.designator) (some "wire"))
        ++ compRecs "wire" c.designator c.additional_components,
        r.desig = DesigArg.one c.designator := by
      intro r hrmem
      rcases List.mem_append.mp hrmem with hwr | hcr
      · obtain ⟨w, hwmem, rfl⟩ := List.mem_map.mp hwr
        rfl
      · obtain ⟨comp, hcmem, heq⟩ := List.mem_filterMap.mp hcr
        by_cases hcig : comp.ignore_in_bom
        · rw [if_pos hcig] at heq
          exact absurd heq (by simp)
        · rw [if_neg hcig] at heq
          simp only [Option.some.injEq] at heq
          rw [← heq]
    rw [desigAt_applyRecs, unionDes_all_same _ _ hall, List.any_append,
      any_wireRecs, any_compRecs]

/-- Witness for C9 on `B9cable` (two wires sharing hash `"hwA"`, one
attached component), aggregated into the empty mapping. -/
theorem C9_witness :
    B9res "hB1" = emptyBom "hB1" ∧
    qtyAt B9res "hwA" = qtyAt emptyBom "hwA"
      + B9cable.bom_qty * B9cable.wire_objects.countP (fun w => w.2.bom_hash == "hwA")
      + ((B9cable.additional_components.filter fun comp => !comp.ignore_in_bom).map
          fun comp => if comp.bom_hash = "hwA" then comp.bom_qty else 0).sum ∧
    desigAt B9res "hwA" = desigAt emptyBom "hwA" ∪
      (if (B9cable.wire_objects.any fun w => w.2.bom_hash == "hwA")
          || ((B9cable.additional_components.filter fun comp => !comp.ignore_in_bom).any
              fun comp => comp.bom_hash == "hwA")
       then filtDesig (.one B9cable.designator) else ∅) := by
  have h := C9_bundle_per_wire emptyBom B9cable rfl rfl B9res rfl
  exact ⟨h.1 (by decide) (by decide), h.2.1 "hwA", h.2.2 "hwA"⟩
